import Mathlib

/-!
# Verification of the pyio binary codec (src/pyio.py)

Shallow embedding of the four codec classes of `pyio.py`:
`MemoryReader` / `MemoryWriter` over an owned byte sequence, and the
stream-backed `Reader` / `Writer`.  Bytes are modelled as `Nat` values
(`0 ≤ b < 256` for genuine Python `bytes`), buffers as `List Nat`,
Python `int` as `Int`.  Operations that can raise return an
`Except Err _` paired with the post-state, because Python mutates the
object in place before an exception propagates.
-/

namespace Pyio

/-- Error conditions raised by the codec:
`underflow` is `struct.error` from `unpack` on a buffer of the wrong size
(a read consumed fewer bytes than the width requires),
`rangeError` is `struct.error` from `pack` on an out-of-range value,
`decodeError` is `UnicodeDecodeError` from `bytes.decode`,
`valueError` is `ValueError` from the `bytes()` constructor. -/
inductive Err where
  | underflow
  | rangeError
  | decodeError
  | valueError
deriving DecidableEq, Repr

/-- Byte order, `"<"` or `">"` in the source. -/
inductive Endian where
  | little
  | big
deriving DecidableEq, Repr

/-- Little-endian byte decomposition of `n` into `w` bytes
(least significant byte first), as `struct.pack` produces for
unsigned formats. -/
def natToBytesLE : Nat → Nat → List Nat
  | 0, _ => []
  | w + 1, n => n % 256 :: natToBytesLE w (n / 256)

/-- Little-endian recomposition of a byte list into a `Nat`. -/
def bytesToNatLE : List Nat → Nat
  | [] => 0
  | b :: bs => b + 256 * bytesToNatLE bs

/-- Byte encoding of `n` in `w` bytes under endianness `e`. -/
def packBytes (e : Endian) (w : Nat) (n : Nat) : List Nat :=
  match e with
  | .little => natToBytesLE w n
  | .big => (natToBytesLE w n).reverse

/-- Byte decoding under endianness `e`. -/
def unpackBytes (e : Endian) (bs : List Nat) : Nat :=
  match e with
  | .little => bytesToNatLE bs
  | .big => bytesToNatLE bs.reverse

/-- `struct.pack(endian ++ fmt, v)` for a fixed-width integer format of
`w` bytes.  Raises `struct.error` (here `Err.rangeError`) when `v` does
not fit the width/signedness; otherwise produces exactly `w` bytes of
the two's complement (signed) or plain binary (unsigned) encoding. -/
def structPack (w : Nat) (signed : Bool) (e : Endian) (v : Int) : Except Err (List Nat) :=
  let lo : Int := if signed then -(2 ^ (w * 8 - 1)) else 0
  let hi : Int := if signed then 2 ^ (w * 8 - 1) - 1 else 2 ^ (w * 8) - 1
  if lo ≤ v ∧ v ≤ hi then
    .ok (packBytes e w ((v % (2 ^ (w * 8) : Nat)).toNat))
  else
    .error .rangeError

/-- `struct.unpack(endian ++ fmt, bs)` for a fixed-width integer format
of `w` bytes.  Raises `struct.error` (here `Err.underflow`, since at
every call site the buffer can only be too short) unless `bs` has
exactly `w` bytes; decodes two's complement when `signed`. -/
def structUnpack (w : Nat) (signed : Bool) (e : Endian) (bs : List Nat) : Except Err Int :=
  if bs.length = w then
    let u : Int := unpackBytes e bs
    .ok (if signed ∧ 2 ^ (w * 8 - 1) ≤ u then u - 2 ^ (w * 8) else u)
  else
    .error .underflow

/-- Python slice `l[i:j]` semantics for a byte sequence: negative
indices count from the end, out-of-range indices clamp, and an empty
span results when the normalized start is not before the stop. -/
def pySlice (l : List Nat) (i j : Int) : List Nat :=
  let n : Nat := l.length
  let i' : Nat := if i < 0 then (n + i).toNat else min i.toNat n
  let j' : Nat := if j < 0 then (n + j).toNat else min j.toNat n
  (l.take j').drop i'

/-- State of a `MemoryReader`: the owned buffer, the configured
endianness and the cursor (`self.offset`, a Python `int`, so it can
go negative or past the end via `seek`). -/
structure MemoryReader where
  buffer : List Nat
  endian : Endian
  offset : Int
deriving DecidableEq, Repr

/-- `MemoryReader(buffer, endian)`: cursor starts at 0. -/
def MemoryReader.init (buffer : List Nat) (e : Endian) : MemoryReader :=
  { buffer := buffer, endian := e, offset := 0 }

/-- `MemoryReader.read`: slice `count` bytes (possibly fewer, Python
slicing never fails) and advance the cursor by `count` unconditionally. -/
def MemoryReader.read (count : Int) (st : MemoryReader) : List Nat × MemoryReader :=
  (pySlice st.buffer st.offset (st.offset + count),
   { st with offset := st.offset + count })

/-- `MemoryReader.read_i8`. -/
def MemoryReader.read_i8 (st : MemoryReader) : Except Err Int × MemoryReader :=
  let p := st.read 1
  (structUnpack 1 true st.endian p.1, p.2)

/-- `MemoryReader.read_i16`. -/
def MemoryReader.read_i16 (st : MemoryReader) : Except Err Int × MemoryReader :=
  let p := st.read 2
  (structUnpack 2 true st.endian p.1, p.2)

/-- `MemoryReader.read_i32`. -/
def MemoryReader.read_i32 (st : MemoryReader) : Except Err Int × MemoryReader :=
  let p := st.read 4
  (structUnpack 4 true st.endian p.1, p.2)

/-- `MemoryReader.read_i64`. -/
def MemoryReader.read_i64 (st : MemoryReader) : Except Err Int × MemoryReader :=
  let p := st.read 8
  (structUnpack 8 true st.endian p.1, p.2)

/-- `MemoryReader.read_u8`. -/
def MemoryReader.read_u8 (st : MemoryReader) : Except Err Int × MemoryReader :=
  let p := st.read 1
  (structUnpack 1 false st.endian p.1, p.2)

/-- `MemoryReader.read_u16`. -/
def MemoryReader.read_u16 (st : MemoryReader) : Except Err Int × MemoryReader :=
  let p := st.read 2
  (structUnpack 2 false st.endian p.1, p.2)

/-- `MemoryReader.read_u32`. -/
def MemoryReader.read_u32 (st : MemoryReader) : Except Err Int × MemoryReader :=
  let p := st.read 4
  (structUnpack 4 false st.endian p.1, p.2)

/-- `MemoryReader.read_u64`. -/
def MemoryReader.read_u64 (st : MemoryReader) : Except Err Int × MemoryReader :=
  let p := st.read 8
  (structUnpack 8 false st.endian p.1, p.2)

/-- `MemoryReader.seek`: set the cursor, no bounds check. -/
def MemoryReader.seek (offset : Int) (st : MemoryReader) : MemoryReader :=
  { st with offset := offset }

/-- `MemoryReader.tell`. -/
def MemoryReader.tell (st : MemoryReader) : Int :=
  st.offset

/-- `MemoryReader.skip`: `seek(tell() + count)`. -/
def MemoryReader.skip (count : Int) (st : MemoryReader) : MemoryReader :=
  st.seek (st.tell + count)

/-- State of a `MemoryWriter`: endianness and the owned, growing
buffer (starts empty). -/
structure MemoryWriter where
  endian : Endian
  buffer : List Nat
deriving DecidableEq, Repr

/-- `MemoryWriter(endian)`. -/
def MemoryWriter.init (e : Endian) : MemoryWriter :=
  { endian := e, buffer := [] }

/-- `MemoryWriter.write`: append bytes. -/
def MemoryWriter.write (data : List Nat) (st : MemoryWriter) : MemoryWriter :=
  { st with buffer := st.buffer ++ data }

/-- `MemoryWriter.write_i8`: `pack` then `write`; when `pack` raises,
nothing is appended. -/
def MemoryWriter.write_i8 (v : Int) (st : MemoryWriter) : Except Err Unit × MemoryWriter :=
  match structPack 1 true st.endian v with
  | .ok bs => (.ok (), st.write bs)
  | .error err => (.error err, st)

/-- `MemoryWriter.write_i16`. -/
def MemoryWriter.write_i16 (v : Int) (st : MemoryWriter) : Except Err Unit × MemoryWriter :=
  match structPack 2 true st.endian v with
  | .ok bs => (.ok (), st.write bs)
  | .error err => (.error err, st)

/-- `MemoryWriter.write_i32`. -/
def MemoryWriter.write_i32 (v : Int) (st : MemoryWriter) : Except Err Unit × MemoryWriter :=
  match structPack 4 true st.endian v with
  | .ok bs => (.ok (), st.write bs)
  | .error err => (.error err, st)

/-- `MemoryWriter.write_i64`. -/
def MemoryWriter.write_i64 (v : Int) (st : MemoryWriter) : Except Err Unit × MemoryWriter :=
  match structPack 8 true st.endian v with
  | .ok bs => (.ok (), st.write bs)
  | .error err => (.error err, st)

/-- `MemoryWriter.write_u8`. -/
def MemoryWriter.write_u8 (v : Int) (st : MemoryWriter) : Except Err Unit × MemoryWriter :=
  match structPack 1 false st.endian v with
  | .ok bs => (.ok (), st.write bs)
  | .error err => (.error err, st)

/-- `MemoryWriter.write_u16`. -/
def MemoryWriter.write_u16 (v : Int) (st : MemoryWriter) : Except Err Unit × MemoryWriter :=
  match structPack 2 false st.endian v with
  | .ok bs => (.ok (), st.write bs)
  | .error err => (.error err, st)

/-- `MemoryWriter.write_u32`. -/
def MemoryWriter.write_u32 (v : Int) (st : MemoryWriter) : Except Err Unit × MemoryWriter :=
  match structPack 4 false st.endian v with
  | .ok bs => (.ok (), st.write bs)
  | .error err => (.error err, st)

/-- `MemoryWriter.write_u64`. -/
def MemoryWriter.write_u64 (v : Int) (st : MemoryWriter) : Except Err Unit × MemoryWriter :=
  match structPack 8 false st.endian v with
  | .ok bs => (.ok (), st.write bs)
  | .error err => (.error err, st)

example : (MemoryWriter.write_u32 305419896 (MemoryWriter.init .little)).2.buffer
    = [0x78, 0x56, 0x34, 0x12] := by decide

example : (MemoryReader.read_u32 (MemoryReader.init [0x78, 0x56, 0x34, 0x12] .little)).1
    = .ok 305419896 := rfl

example : (MemoryReader.read_u32 (MemoryReader.init [0x78, 0x56, 0x34, 0x12] .big)).1
    = .ok 2018915346 := rfl

example : (MemoryReader.read_i32 (MemoryReader.init [1, 2] .little)).1
    = .error .underflow := rfl

example : (MemoryReader.read_i8 (MemoryReader.init [0xFF] .little)).1
    = .ok (-1) := rfl

/-! ## Numeric codec lemmas -/

theorem natToBytesLE_length (w n : Nat) : (natToBytesLE w n).length = w := by
  induction w generalizing n with
  | zero => simp [natToBytesLE]
  | succ w ih => simp [natToBytesLE, ih]

theorem packBytes_length (e : Endian) (w n : Nat) : (packBytes e w n).length = w := by
  cases e <;> simp [packBytes, natToBytesLE_length]

theorem bytesToNatLE_natToBytesLE (w n : Nat) (h : n < 256 ^ w) :
    bytesToNatLE (natToBytesLE w n) = n := by
  induction w generalizing n with
  | zero => simp at h; simp [h, natToBytesLE, bytesToNatLE]
  | succ w ih =>
      have hdiv : n / 256 < 256 ^ w := by
        rw [Nat.div_lt_iff_lt_mul (by norm_num)]
        calc n < 256 ^ (w + 1) := h
        _ = 256 ^ w * 256 := by ring
      simp only [natToBytesLE, bytesToNatLE, ih (n / 256) hdiv]
      omega

theorem unpackBytes_packBytes (e : Endian) (w n : Nat) (h : n < 256 ^ w) :
    unpackBytes e (packBytes e w n) = n := by
  cases e <;>
    simp [unpackBytes, packBytes, List.reverse_reverse, bytesToNatLE_natToBytesLE w n h]

theorem structPack_ok_of_range (w : Nat) (sg : Bool) (e : Endian) (v : Int)
    (hlo : (if sg then -(2 ^ (w * 8 - 1)) else 0) ≤ v)
    (hhi : v ≤ if sg then 2 ^ (w * 8 - 1) - 1 else 2 ^ (w * 8) - 1) :
    structPack w sg e v = .ok (packBytes e w ((v % ((2 ^ (w * 8) : Nat) : Int)).toNat)) := by
  simp only [structPack]
  rw [if_pos ⟨hlo, hhi⟩]

theorem two_pow_cast (k : Nat) : (((2 ^ k : Nat) : Int)) = (2 : Int) ^ k := by
  push_cast
  ring

theorem structUnpack_packBytes (w : Nat) (sg : Bool) (e : Endian) (v : Int)
    (hw : 0 < w)
    (hlo : (if sg then -(2 ^ (w * 8 - 1)) else 0) ≤ v)
    (hhi : v ≤ if sg then 2 ^ (w * 8 - 1) - 1 else 2 ^ (w * 8) - 1) :
    structUnpack w sg e (packBytes e w ((v % ((2 ^ (w * 8) : Nat) : Int)).toNat)) = .ok v := by
  set M : Int := ((2 ^ (w * 8) : Nat) : Int) with hM
  have hMval : M = (2 : Int) ^ (w * 8) := two_pow_cast (w * 8)
  have hMpos : (0 : Int) < M := by
    rw [hMval]; positivity
  have hmod_nonneg : 0 ≤ v % M := Int.emod_nonneg v (ne_of_gt hMpos)
  have hmod_lt : v % M < M := Int.emod_lt_of_pos v hMpos
  have hcast : (((v % M).toNat : Int)) = v % M := Int.toNat_of_nonneg hmod_nonneg
  have hlt : (v % M).toNat < 256 ^ w := by
    have h2 : (v % M).toNat < M.toNat := (Int.toNat_lt_toNat hMpos).mpr hmod_lt
    have h3 : M.toNat = 2 ^ (w * 8) := by rw [hM]; exact Int.toNat_natCast _
    have h256 : (256 : Nat) ^ w = 2 ^ (w * 8) := by
      rw [show (256 : Nat) = 2 ^ 8 from rfl, ← pow_mul, Nat.mul_comm]
    omega
  have hsplit : M = 2 * 2 ^ (w * 8 - 1) := by
    have h1 : (2 : Int) ^ (w * 8) = 2 ^ (w * 8 - 1 + 1) := by
      rw [show w * 8 - 1 + 1 = w * 8 by omega]
    rw [hMval, h1, pow_succ]
    ring
  simp only [structUnpack]
  rw [if_pos (packBytes_length e w _)]
  rw [unpackBytes_packBytes e w _ hlt, hcast]
  cases sg with
  | false =>
      rw [if_neg (by simp)] at hlo
      rw [if_neg (by simp)] at hhi
      have hveq : v % M = v := Int.emod_eq_of_lt hlo (by rw [hMval]; linarith)
      rw [hveq, if_neg (by simp)]
  | true =>
      rw [if_pos rfl] at hlo
      rw [if_pos rfl] at hhi
      rcases le_or_lt 0 v with hv | hv
      · have hvlt : v < M := by rw [hsplit]; linarith
        have hveq : v % M = v := Int.emod_eq_of_lt hv hvlt
        rw [hveq, if_neg (by intro h; have := h.2; linarith)]
      · have hb1 : (2 : Int) ^ (w * 8 - 1) ≤ v + M := by rw [hsplit]; linarith
        have hb2 : v + M < M := by linarith
        have h1 : (v + M * 1) % M = v % M := Int.add_mul_emod_self_left v M 1
        rw [mul_one] at h1
        have hveq : v % M = v + M := by
          rw [← h1]
          exact Int.emod_eq_of_lt (le_trans (by positivity) hb1) hb2
        rw [hveq, if_pos ⟨rfl, hb1⟩]
        have hfin : v + M - 2 ^ (w * 8) = v := by rw [← hMval]; ring
        rw [hfin]

theorem pySlice_exact (l : List Nat) (k : Int) (h0 : 0 ≤ k) (hl : (l.length : Int) = k) :
    pySlice l 0 k = l := by
  simp only [pySlice]
  rw [if_neg (by norm_num), if_neg (by omega)]
  have hk : k.toNat = l.length := by omega
  simp [hk]

/-- C1: for every width W in {8,16,32,64}, signedness, and endianness, and
every integer v in that width's valid range, writing v with
`MemoryWriter.write_<W>` and reading the produced bytes back with a
`MemoryReader` of the same endianness via `read_<W>` returns exactly v. -/
theorem c1_numeric_roundtrip (e : Endian) (v : Int) :
    ((-128 ≤ v ∧ v ≤ 127) →
      (MemoryReader.read_i8 (MemoryReader.init
        ((MemoryWriter.write_i8 v (MemoryWriter.init e)).2.buffer) e)).1 = .ok v) ∧
    ((-32768 ≤ v ∧ v ≤ 32767) →
      (MemoryReader.read_i16 (MemoryReader.init
        ((MemoryWriter.write_i16 v (MemoryWriter.init e)).2.buffer) e)).1 = .ok v) ∧
    ((-2147483648 ≤ v ∧ v ≤ 2147483647) →
      (MemoryReader.read_i32 (MemoryReader.init
        ((MemoryWriter.write_i32 v (MemoryWriter.init e)).2.buffer) e)).1 = .ok v) ∧
    ((-9223372036854775808 ≤ v ∧ v ≤ 9223372036854775807) →
      (MemoryReader.read_i64 (MemoryReader.init
        ((MemoryWriter.write_i64 v (MemoryWriter.init e)).2.buffer) e)).1 = .ok v) ∧
    ((0 ≤ v ∧ v ≤ 255) →
      (MemoryReader.read_u8 (MemoryReader.init
        ((MemoryWriter.write_u8 v (MemoryWriter.init e)).2.buffer) e)).1 = .ok v) ∧
    ((0 ≤ v ∧ v ≤ 65535) →
      (MemoryReader.read_u16 (MemoryReader.init
        ((MemoryWriter.write_u16 v (MemoryWriter.init e)).2.buffer) e)).1 = .ok v) ∧
    ((0 ≤ v ∧ v ≤ 4294967295) →
      (MemoryReader.read_u32 (MemoryReader.init
        ((MemoryWriter.write_u32 v (MemoryWriter.init e)).2.buffer) e)).1 = .ok v) ∧
    ((0 ≤ v ∧ v ≤ 18446744073709551615) →
      (MemoryReader.read_u64 (MemoryReader.init
        ((MemoryWriter.write_u64 v (MemoryWriter.init e)).2.buffer) e)).1 = .ok v) := by
  refine ⟨?_, ?_, ?_, ?_, ?_, ?_, ?_, ?_⟩
  · intro h
    have hp := structPack_ok_of_range 1 true e v (by simpa using h.1) (by simpa using h.2)
    simp only [MemoryWriter.init, MemoryWriter.write_i8, hp, MemoryWriter.write,
      List.nil_append, MemoryReader.init, MemoryReader.read_i8, MemoryReader.read]
    rw [pySlice_exact _ _ (by norm_num) (by rw [packBytes_length]; norm_num)]
    exact structUnpack_packBytes 1 true e v (by norm_num) (by simpa using h.1)
      (by simpa using h.2)
  · intro h
    have hp := structPack_ok_of_range 2 true e v (by simpa using h.1) (by simpa using h.2)
    simp only [MemoryWriter.init, MemoryWriter.write_i16, hp, MemoryWriter.write,
      List.nil_append, MemoryReader.init, MemoryReader.read_i16, MemoryReader.read]
    rw [pySlice_exact _ _ (by norm_num) (by rw [packBytes_length]; norm_num)]
    exact structUnpack_packBytes 2 true e v (by norm_num) (by simpa using h.1)
      (by simpa using h.2)
  · intro h
    have hp := structPack_ok_of_range 4 true e v (by simpa using h.1) (by simpa using h.2)
    simp only [MemoryWriter.init, MemoryWriter.write_i32, hp, MemoryWriter.write,
      List.nil_append, MemoryReader.init, MemoryReader.read_i32, MemoryReader.read]
    rw [pySlice_exact _ _ (by norm_num) (by rw [packBytes_length]; norm_num)]
    exact structUnpack_packBytes 4 true e v (by norm_num) (by simpa using h.1)
      (by simpa using h.2)
  · intro h
    have hp := structPack_ok_of_range 8 true e v (by simpa using h.1) (by simpa using h.2)
    simp only [MemoryWriter.init, MemoryWriter.write_i64, hp, MemoryWriter.write,
      List.nil_append, MemoryReader.init, MemoryReader.read_i64, MemoryReader.read]
    rw [pySlice_exact _ _ (by norm_num) (by rw [packBytes_length]; norm_num)]
    exact structUnpack_packBytes 8 true e v (by norm_num) (by simpa using h.1)
      (by simpa using h.2)
  · intro h
    have hp := structPack_ok_of_range 1 false e v (by simpa using h.1) (by simpa using h.2)
    simp only [MemoryWriter.init, MemoryWriter.write_u8, hp, MemoryWriter.write,
      List.nil_append, MemoryReader.init, MemoryReader.read_u8, MemoryReader.read]
    rw [pySlice_exact _ _ (by norm_num) (by rw [packBytes_length]; norm_num)]
    exact structUnpack_packBytes 1 false e v (by norm_num) (by simpa using h.1)
      (by simpa using h.2)
  · intro h
    have hp := structPack_ok_of_range 2 false e v (by simpa using h.1) (by simpa using h.2)
    simp only [MemoryWriter.init, MemoryWriter.write_u16, hp, MemoryWriter.write,
      List.nil_append, MemoryReader.init, MemoryReader.read_u16, MemoryReader.read]
    rw [pySlice_exact _ _ (by norm_num) (by rw [packBytes_length]; norm_num)]
    exact structUnpack_packBytes 2 false e v (by norm_num) (by simpa using h.1)
      (by simpa using h.2)
  · intro h
    have hp := structPack_ok_of_range 4 false e v (by simpa using h.1) (by simpa using h.2)
    simp only [MemoryWriter.init, MemoryWriter.write_u32, hp, MemoryWriter.write,
      List.nil_append, MemoryReader.init, MemoryReader.read_u32, MemoryReader.read]
    rw [pySlice_exact _ _ (by norm_num) (by rw [packBytes_length]; norm_num)]
    exact structUnpack_packBytes 4 false e v (by norm_num) (by simpa using h.1)
      (by simpa using h.2)
  · intro h
    have hp := structPack_ok_of_range 8 false e v (by simpa using h.1) (by simpa using h.2)
    simp only [MemoryWriter.init, MemoryWriter.write_u64, hp, MemoryWriter.write,
      List.nil_append, MemoryReader.init, MemoryReader.read_u64, MemoryReader.read]
    rw [pySlice_exact _ _ (by norm_num) (by rw [packBytes_length]; norm_num)]
    exact structUnpack_packBytes 8 false e v (by norm_num) (by simpa using h.1)
      (by simpa using h.2)

/-- C1 witness: concrete instance of the round-trip at width 32,
unsigned, little endian, v = 305419896, and width 8, signed, big
endian, v = -100. -/
theorem c1_numeric_roundtrip_witness :
    ((0:Int) ≤ 305419896 ∧ (305419896:Int) ≤ 4294967295) ∧
    (MemoryReader.read_u32 (MemoryReader.init
      ((MemoryWriter.write_u32 305419896 (MemoryWriter.init .little)).2.buffer) .little)).1
      = .ok 305419896 ∧
    (MemoryReader.read_i8 (MemoryReader.init
      ((MemoryWriter.write_i8 (-100) (MemoryWriter.init .big)).2.buffer) .big)).1
      = .ok (-100) :=
  ⟨by norm_num,
   (c1_numeric_roundtrip .little 305419896).2.2.2.2.2.2.1 (by norm_num),
   (c1_numeric_roundtrip .big (-100)).1 (by norm_num)⟩

/-- C9: a little-endian `MemoryWriter.write_u32` of 305419896 produces
exactly the bytes [0x78, 0x56, 0x34, 0x12]; a little-endian
`MemoryReader.read_u32` over those bytes returns 305419896 and a
big-endian one returns 2018915346. -/
theorem c9_u32_concrete :
    (MemoryWriter.write_u32 305419896 (MemoryWriter.init .little)).2.buffer
      = [0x78, 0x56, 0x34, 0x12] ∧
    (MemoryReader.read_u32 (MemoryReader.init [0x78, 0x56, 0x34, 0x12] .little)).1
      = .ok 305419896 ∧
    (MemoryReader.read_u32 (MemoryReader.init [0x78, 0x56, 0x34, 0x12] .big)).1
      = .ok 2018915346 :=
  ⟨by decide, rfl, rfl⟩

theorem pySlice_length_ne (l : List Nat) (i c : Int) (w : Nat) (h0 : 0 ≤ i) (hw : 0 < w)
    (hcw : c = (w : Int)) (h : (l.length : Int) < i + c) : (pySlice l i (i + c)).length ≠ w := by
  simp only [pySlice]
  rw [if_neg (by omega), if_neg (by omega)]
  simp only [List.length_drop, List.length_take]
  omega

/-- C2: for every reader state whose cursor is nonnegative, each
fixed-width read of width W fails with `Err.underflow` (and returns no
value) whenever fewer than W/8 bytes remain between the cursor and the
end of the buffer; in particular `read_i32`/`read_u32` with only 2
bytes remaining fail with underflow. -/
theorem c2_read_underflow (st : MemoryReader) (h0 : 0 ≤ st.offset) :
    ((st.buffer.length : Int) < st.offset + 1 →
      (MemoryReader.read_i8 st).1 = .error .underflow) ∧
    ((st.buffer.length : Int) < st.offset + 2 →
      (MemoryReader.read_i16 st).1 = .error .underflow) ∧
    ((st.buffer.length : Int) < st.offset + 4 →
      (MemoryReader.read_i32 st).1 = .error .underflow) ∧
    ((st.buffer.length : Int) < st.offset + 8 →
      (MemoryReader.read_i64 st).1 = .error .underflow) ∧
    ((st.buffer.length : Int) < st.offset + 1 →
      (MemoryReader.read_u8 st).1 = .error .underflow) ∧
    ((st.buffer.length : Int) < st.offset + 2 →
      (MemoryReader.read_u16 st).1 = .error .underflow) ∧
    ((st.buffer.length : Int) < st.offset + 4 →
      (MemoryReader.read_u32 st).1 = .error .underflow) ∧
    ((st.buffer.length : Int) < st.offset + 8 →
      (MemoryReader.read_u64 st).1 = .error .underflow) := by
  refine ⟨?_, ?_, ?_, ?_, ?_, ?_, ?_, ?_⟩
  · intro h
    simp only [MemoryReader.read_i8, MemoryReader.read, structUnpack]
    rw [if_neg (pySlice_length_ne st.buffer st.offset 1 1 h0 (by norm_num) (by norm_num) h)]
  · intro h
    simp only [MemoryReader.read_i16, MemoryReader.read, structUnpack]
    rw [if_neg (pySlice_length_ne st.buffer st.offset 2 2 h0 (by norm_num) (by norm_num) h)]
  · intro h
    simp only [MemoryReader.read_i32, MemoryReader.read, structUnpack]
    rw [if_neg (pySlice_length_ne st.buffer st.offset 4 4 h0 (by norm_num) (by norm_num) h)]
  · intro h
    simp only [MemoryReader.read_i64, MemoryReader.read, structUnpack]
    rw [if_neg (pySlice_length_ne st.buffer st.offset 8 8 h0 (by norm_num) (by norm_num) h)]
  · intro h
    simp only [MemoryReader.read_u8, MemoryReader.read, structUnpack]
    rw [if_neg (pySlice_length_ne st.buffer st.offset 1 1 h0 (by norm_num) (by norm_num) h)]
  · intro h
    simp only [MemoryReader.read_u16, MemoryReader.read, structUnpack]
    rw [if_neg (pySlice_length_ne st.buffer st.offset 2 2 h0 (by norm_num) (by norm_num) h)]
  · intro h
    simp only [MemoryReader.read_u32, MemoryReader.read, structUnpack]
    rw [if_neg (pySlice_length_ne st.buffer st.offset 4 4 h0 (by norm_num) (by norm_num) h)]
  · intro h
    simp only [MemoryReader.read_u64, MemoryReader.read, structUnpack]
    rw [if_neg (pySlice_length_ne st.buffer st.offset 8 8 h0 (by norm_num) (by norm_num) h)]

/-- C2 witness: over the two-byte buffer [1, 2], `read_i32` and
`read_u32` both fail with underflow. -/
theorem c2_read_underflow_witness :
    (0 : Int) ≤ (MemoryReader.init [1, 2] .little).offset ∧
    (MemoryReader.read_i32 (MemoryReader.init [1, 2] .little)).1 = .error .underflow ∧
    (MemoryReader.read_u32 (MemoryReader.init [1, 2] .little)).1 = .error .underflow :=
  ⟨by simp [MemoryReader.init],
   (c2_read_underflow (MemoryReader.init [1, 2] .little)
     (by simp [MemoryReader.init])).2.2.1 (by simp [MemoryReader.init]),
   (c2_read_underflow (MemoryReader.init [1, 2] .little)
     (by simp [MemoryReader.init])).2.2.2.2.2.2.1 (by simp [MemoryReader.init])⟩

/-- C6: for every fixed-width write and every value outside the valid
range of that width/signedness, the call fails with `Err.rangeError`
and the writer state (hence its buffer) is unchanged: no bytes are
committed. -/
theorem c6_write_range_error (st : MemoryWriter) (v : Int) :
    ((v < -128 ∨ 127 < v) →
      MemoryWriter.write_i8 v st = (.error .rangeError, st)) ∧
    ((v < -32768 ∨ 32767 < v) →
      MemoryWriter.write_i16 v st = (.error .rangeError, st)) ∧
    ((v < -2147483648 ∨ 2147483647 < v) →
      MemoryWriter.write_i32 v st = (.error .rangeError, st)) ∧
    ((v < -9223372036854775808 ∨ 9223372036854775807 < v) →
      MemoryWriter.write_i64 v st = (.error .rangeError, st)) ∧
    ((v < 0 ∨ 255 < v) →
      MemoryWriter.write_u8 v st = (.error .rangeError, st)) ∧
    ((v < 0 ∨ 65535 < v) →
      MemoryWriter.write_u16 v st = (.error .rangeError, st)) ∧
    ((v < 0 ∨ 4294967295 < v) →
      MemoryWriter.write_u32 v st = (.error .rangeError, st)) ∧
    ((v < 0 ∨ 18446744073709551615 < v) →
      MemoryWriter.write_u64 v st = (.error .rangeError, st)) := by
  refine ⟨?_, ?_, ?_, ?_, ?_, ?_, ?_, ?_⟩
  · intro h
    simp only [MemoryWriter.write_i8, structPack]
    rw [if_neg (by intro hc; simp at hc; omega)]
  · intro h
    simp only [MemoryWriter.write_i16, structPack]
    rw [if_neg (by intro hc; simp at hc; omega)]
  · intro h
    simp only [MemoryWriter.write_i32, structPack]
    rw [if_neg (by intro hc; simp at hc; omega)]
  · intro h
    simp only [MemoryWriter.write_i64, structPack]
    rw [if_neg (by intro hc; simp at hc; omega)]
  · intro h
    simp only [MemoryWriter.write_u8, structPack]
    rw [if_neg (by intro hc; simp at hc; omega)]
  · intro h
    simp only [MemoryWriter.write_u16, structPack]
    rw [if_neg (by intro hc; simp at hc; omega)]
  · intro h
    simp only [MemoryWriter.write_u32, structPack]
    rw [if_neg (by intro hc; simp at hc; omega)]
  · intro h
    simp only [MemoryWriter.write_u64, structPack]
    rw [if_neg (by intro hc; simp at hc; omega)]

/-- C6 witness: writing 300 as an 8-bit unsigned value fails with a
range error and commits no bytes. -/
theorem c6_write_range_error_witness :
    ((300 : Int) < 0 ∨ (255 : Int) < 300) ∧
    MemoryWriter.write_u8 300 (MemoryWriter.init .little)
      = (.error .rangeError, MemoryWriter.init .little) :=
  ⟨by norm_num,
   (c6_write_range_error (MemoryWriter.init .little) 300).2.2.2.2.1 (by norm_num)⟩

/-! ## External-sink writer (`Writer` over a seekable binary stream) -/

/-- State of the external seekable writable resource handed to
`Writer` (e.g. a file opened `wb` or a `BytesIO`): its byte content and
the stream position. -/
structure FileBuf where
  data : List Nat
  pos : Nat
deriving DecidableEq, Repr

/-- `stream.write(buf)` semantics of a seekable binary sink: writing a
non-empty `buf` at a position past the end zero-fills the gap,
overwrites existing bytes, extends at the end and advances the
position; writing zero bytes changes nothing. -/
def FileBuf.writeAt (buf : List Nat) (f : FileBuf) : FileBuf :=
  if buf = [] then f
  else
    let padded := f.data ++ List.replicate (f.pos - f.data.length) 0
    { data := padded.take f.pos ++ buf ++ padded.drop (f.pos + buf.length),
      pos := f.pos + buf.length }

/-- State of a `Writer`: the external sink and the endianness. -/
structure Writer where
  buffer : FileBuf
  endian : Endian
deriving DecidableEq, Repr

/-- `Writer.write`: delegate to the sink. -/
def Writer.write (buf : List Nat) (st : Writer) : Writer :=
  { st with buffer := st.buffer.writeAt buf }

/-- `Writer.write_i8`: `pack` then `write`. -/
def Writer.write_i8 (v : Int) (st : Writer) : Except Err Unit × Writer :=
  match structPack 1 true st.endian v with
  | .ok bs => (.ok (), st.write bs)
  | .error err => (.error err, st)

/-- The loop body of `Writer.skip`: `for _ in range(n): write_i8(0)`. -/
def Writer.skipAux : Nat → Writer → Writer
  | 0, st => st
  | n + 1, st => Writer.skipAux n (Writer.write_i8 0 st).2

/-- `Writer.skip(count)`: write `count` zero bytes one at a time
(`range` of a negative count is empty). -/
def Writer.skip (count : Int) (st : Writer) : Writer :=
  Writer.skipAux count.toNat st

theorem structPack_zero_i8 (e : Endian) : structPack 1 true e 0 = .ok [0] := by
  cases e <;> rfl

theorem FileBuf.writeAt_writeAt (f : FileBuf) (b1 b2 : List Nat) :
    (f.writeAt b1).writeAt b2 = f.writeAt (b1 ++ b2) := by
  by_cases h1 : b1 = []
  · subst h1; simp [FileBuf.writeAt]
  by_cases h2 : b2 = []
  · subst h2; simp [FileBuf.writeAt, h1]
  have h12 : b1 ++ b2 ≠ [] := by simp [h1]
  simp only [FileBuf.writeAt, if_neg h1, if_neg h2, if_neg h12]
  set p := f.pos with hp
  set padded := f.data ++ List.replicate (p - f.data.length) 0 with hpad
  have hpL : p ≤ padded.length := by
    simp only [hpad, List.length_append, List.length_replicate]
    omega
  have htk : (padded.take p).length = p := by
    simp only [List.length_take]
    omega
  have hglen : p + b1.length ≤ (padded.take p ++ b1 ++ padded.drop (p + b1.length)).length := by
    simp only [List.length_append, List.length_take, List.length_drop]
    omega
  simp only [FileBuf.mk.injEq]
  constructor
  · rw [Nat.sub_eq_zero_of_le hglen]
    simp only [List.replicate_zero, List.append_nil]
    have e1 : (padded.take p ++ b1 ++ padded.drop (p + b1.length)).take (p + b1.length)
        = padded.take p ++ b1 := by
      refine List.take_left' ?_
      simp [htk]
    have e2 : (padded.take p ++ b1 ++ padded.drop (p + b1.length)).drop
        (p + b1.length + b2.length) = padded.drop (p + b1.length + b2.length) := by
      rw [show p + b1.length + b2.length
        = (padded.take p ++ b1).length + b2.length by simp [htk]]
      rw [List.drop_append, List.drop_drop]
      congr 1
      simp only [List.length_append, htk]
      try omega
    rw [e1, e2]
    simp only [List.append_assoc, List.length_append, Nat.add_assoc]
  · simp only [List.length_append, Nat.add_assoc]

theorem Writer.skipAux_eq_write (n : Nat) (st : Writer) :
    Writer.skipAux n st = Writer.write (List.replicate n 0) st := by
  induction n generalizing st with
  | zero => simp [Writer.skipAux, Writer.write, FileBuf.writeAt]
  | succ n ih =>
      simp only [Writer.skipAux, Writer.write_i8, structPack_zero_i8]
      rw [ih]
      simp only [Writer.write]
      rw [FileBuf.writeAt_writeAt]
      rw [show ([0] ++ List.replicate n 0 : List Nat) = List.replicate (n + 1) 0 by
        simp [List.replicate_succ]]

/-- C5: `skip(count)` on a reader is exactly `seek(tell() + count)` and
never touches the buffer content, while `skip(count)` on the
external-sink `Writer` (for `count ≥ 0`) equals writing `count` zero
bytes at the current position. -/
theorem c5_skip_asymmetry :
    (∀ (st : MemoryReader) (count : Int),
      MemoryReader.skip count st = MemoryReader.seek (MemoryReader.tell st + count) st ∧
      (MemoryReader.skip count st).buffer = st.buffer) ∧
    (∀ (st : Writer) (count : Int), 0 ≤ count →
      Writer.skip count st = Writer.write (List.replicate count.toNat 0) st) := by
  constructor
  · exact fun st count => ⟨rfl, rfl⟩
  · intro st count _
    exact Writer.skipAux_eq_write count.toNat st

/-- C5 witness: on the concrete sink holding [5] at position 0,
`skip 3` writes exactly three zero bytes. -/
theorem c5_skip_asymmetry_witness :
    (MemoryReader.skip 2 (MemoryReader.init [9, 9, 9] .little)
        = MemoryReader.seek (MemoryReader.tell (MemoryReader.init [9, 9, 9] .little) + 2)
            (MemoryReader.init [9, 9, 9] .little) ∧
      (MemoryReader.skip 2 (MemoryReader.init [9, 9, 9] .little)).buffer = [9, 9, 9]) ∧
    (0 : Int) ≤ 3 ∧
    Writer.skip 3 ⟨⟨[5], 0⟩, .little⟩
      = Writer.write (List.replicate (3 : Int).toNat 0) ⟨⟨[5], 0⟩, .little⟩ ∧
    (Writer.skip 3 ⟨⟨[5], 0⟩, .little⟩).buffer.data = [0, 0, 0] :=
  ⟨(c5_skip_asymmetry.1 (MemoryReader.init [9, 9, 9] .little) 2),
   by norm_num,
   c5_skip_asymmetry.2 ⟨⟨[5], 0⟩, .little⟩ 3 (by norm_num),
   by decide⟩

/-! ## UTF-8 codec (`str.encode` / `bytes.decode`) -/

/-- The UTF-8 byte sequence of a single code point `c` (valid for
`c < 0x110000`), as produced by Python's `str.encode('utf-8')`. -/
def utf8EncodeChar (c : Nat) : List Nat :=
  if c < 0x80 then [c]
  else if c < 0x800 then [0xC0 + c / 64, 0x80 + c % 64]
  else if c < 0x10000 then [0xE0 + c / 4096, 0x80 + c / 64 % 64, 0x80 + c % 64]
  else [0xF0 + c / 262144, 0x80 + c / 4096 % 64, 0x80 + c / 64 % 64, 0x80 + c % 64]

/-- `data.encode('utf-8')`: the concatenated UTF-8 bytes of the
string's code points (Lean `Char`s are never surrogates, exactly the
code points Python can encode). -/
def utf8Encode (s : String) : List Nat :=
  (s.data.map (fun c => utf8EncodeChar c.toNat)).flatten

/-- A UTF-8 continuation byte, `0x80 ≤ b < 0xC0`. -/
def isCont (b : Nat) : Bool :=
  decide (0x80 ≤ b) && decide (b < 0xC0)

/-- Strict UTF-8 decoding of a byte list into code points, as
`bytes.decode('utf-8')`: rejects truncated sequences, stray or missing
continuation bytes, overlong encodings, surrogates and code points
above 0x10FFFF, returning `none` (a `UnicodeDecodeError`). -/
def utf8DecodeList : List Nat → Option (List Nat)
  | [] => some []
  | b0 :: rest =>
    if b0 < 0x80 then
      (utf8DecodeList rest).map (fun cs => b0 :: cs)
    else if b0 < 0xC2 then none
    else if b0 < 0xE0 then
      match rest with
      | [] => none
      | b1 :: r =>
        if isCont b1 then
          (utf8DecodeList r).map (fun cs => ((b0 - 0xC0) * 64 + (b1 - 0x80)) :: cs)
        else none
    else if b0 < 0xF0 then
      match rest with
      | [] => none
      | b1 :: rest1 =>
        match rest1 with
        | [] => none
        | b2 :: r =>
          if isCont b1 && isCont b2 then
            let c := (b0 - 0xE0) * 4096 + (b1 - 0x80) * 64 + (b2 - 0x80)
            if 0x800 ≤ c ∧ ¬(0xD800 ≤ c ∧ c < 0xE000) then
              (utf8DecodeList r).map (fun cs => c :: cs)
            else none
          else none
    else if b0 < 0xF5 then
      match rest with
      | [] => none
      | b1 :: rest1 =>
        match rest1 with
        | [] => none
        | b2 :: rest2 =>
          match rest2 with
          | [] => none
          | b3 :: r =>
            if isCont b1 && isCont b2 && isCont b3 then
              let c := (b0 - 0xF0) * 262144 + (b1 - 0x80) * 4096 + (b2 - 0x80) * 64
                + (b3 - 0x80)
              if 0x10000 ≤ c ∧ c < 0x110000 then
                (utf8DecodeList r).map (fun cs => c :: cs)
              else none
            else none
    else none

/-- `bs.decode('utf-8')` as a `String`: `none` is a `UnicodeDecodeError`. -/
def utf8Decode (bs : List Nat) : Option String :=
  (utf8DecodeList bs).map (fun cs => String.mk (cs.map Char.ofNat))

example : utf8Encode "abc" = [0x61, 0x62, 0x63] := by decide
example : utf8Decode [0x61, 0x62, 0x63] = some "abc" := by decide
example : utf8Encode "é" = [0xC3, 0xA9] := by decide
example : utf8Decode [0xC3, 0xA9] = some "é" := by decide
example : utf8Decode [0xC0, 0x80] = none := by decide
example : utf8Decode [0xED, 0xA0, 0x80] = none := by decide
example : utf8Encode "€5" = [0xE2, 0x82, 0xAC, 0x35] := by decide
example : utf8Decode [0xE2, 0x82, 0xAC, 0x35] = some "€5" := by decide
example : utf8Decode [0xF0, 0x9F, 0x98, 0x80] = some "😀" := by decide

theorem utf8DecodeList_encodeChar (c : Nat) (r : List Nat)
    (hv : c < 0xD800 ∨ (0xE000 ≤ c ∧ c < 0x110000)) :
    utf8DecodeList (utf8EncodeChar c ++ r) = (utf8DecodeList r).map (fun cs => c :: cs) := by
  by_cases h1 : c < 0x80
  · simp only [utf8EncodeChar, if_pos h1, List.cons_append, List.nil_append]
    rcases r with _ | ⟨x, _ | ⟨y, _ | ⟨z, rs⟩⟩⟩ <;> simp [utf8DecodeList, h1]
  by_cases h2 : c < 0x800
  · have hb0a : ¬(0xC0 + c / 64 < 0x80) := by omega
    have hb0b : ¬(0xC0 + c / 64 < 0xC2) := by omega
    have hb0c : 0xC0 + c / 64 < 0xE0 := by omega
    have hct : isCont (0x80 + c % 64) = true := by simp [isCont]; omega
    have hA : c / 64 * 64 + c % 64 = c := by omega
    simp only [utf8EncodeChar, if_neg h1, if_pos h2, List.cons_append, List.nil_append]
    rcases r with _ | ⟨x, _ | ⟨y, rs⟩⟩ <;>
      simp [utf8DecodeList, hb0a, hb0b, hb0c, hct, hA]
  by_cases h3 : c < 0x10000
  · have hb0a : ¬(0xE0 + c / 4096 < 0x80) := by omega
    have hb0b : ¬(0xE0 + c / 4096 < 0xC2) := by omega
    have hb0c : ¬(0xE0 + c / 4096 < 0xE0) := by omega
    have hb0d : 0xE0 + c / 4096 < 0xF0 := by omega
    have hct1 : isCont (0x80 + c / 64 % 64) = true := by simp [isCont]; omega
    have hct2 : isCont (0x80 + c % 64) = true := by simp [isCont]; omega
    have hB : c / 4096 * 4096 + c / 64 % 64 * 64 + c % 64 = c := by omega
    have hcond : 0x800 ≤ c ∧ ¬(0xD800 ≤ c ∧ c < 0xE000) := by omega
    simp only [utf8EncodeChar, if_neg h1, if_neg h2, if_pos h3, List.cons_append,
      List.nil_append]
    rcases r with _ | ⟨x, rs⟩ <;>
      simp [utf8DecodeList, hb0a, hb0b, hb0c, hb0d, hct1, hct2, hB, hcond.1, hcond.2]
  · have hc5 : c < 0x110000 := by omega
    have hb0a : ¬(0xF0 + c / 262144 < 0x80) := by omega
    have hb0b : ¬(0xF0 + c / 262144 < 0xC2) := by omega
    have hb0c : ¬(0xF0 + c / 262144 < 0xE0) := by omega
    have hb0d : ¬(0xF0 + c / 262144 < 0xF0) := by omega
    have hb0e : 0xF0 + c / 262144 < 0xF5 := by omega
    have hct1 : isCont (0x80 + c / 4096 % 64) = true := by simp [isCont]; omega
    have hct2 : isCont (0x80 + c / 64 % 64) = true := by simp [isCont]; omega
    have hct3 : isCont (0x80 + c % 64) = true := by simp [isCont]; omega
    have hC : c / 262144 * 262144 + c / 4096 % 64 * 4096 + c / 64 % 64 * 64 + c % 64 = c := by
      omega
    have hcond1 : 0x10000 ≤ c := by omega
    simp only [utf8EncodeChar, if_neg h1, if_neg h2, if_neg h3, List.cons_append,
      List.nil_append]
    simp [utf8DecodeList, hb0a, hb0b, hb0c, hb0d, hb0e, hct1, hct2, hct3, hC, hcond1, hc5]

/-- Every Lean `Char`'s code point is a non-surrogate below 0x110000. -/
theorem char_toNat_valid (c : Char) :
    c.toNat < 0xD800 ∨ (0xE000 ≤ c.toNat ∧ c.toNat < 0x110000) := by
  have h := c.valid
  simp only [UInt32.isValidChar, Nat.isValidChar] at h
  exact h

theorem utf8DecodeList_append_encode (cs : List Char) (r : List Nat) :
    utf8DecodeList ((cs.map (fun c => utf8EncodeChar c.toNat)).flatten ++ r)
      = (utf8DecodeList r).map (fun l => cs.map Char.toNat ++ l) := by
  induction cs with
  | nil => simp
  | cons c cs ih =>
      simp only [List.map_cons, List.flatten_cons, List.append_assoc]
      rw [utf8DecodeList_encodeChar c.toNat _ (char_toNat_valid c), ih, Option.map_map]
      rfl

theorem utf8DecodeList_utf8Encode (s : String) :
    utf8DecodeList (utf8Encode s) = some (s.data.map Char.toNat) := by
  have h := utf8DecodeList_append_encode s.data []
  simpa [utf8Encode, utf8DecodeList] using h

theorem utf8Decode_utf8Encode (s : String) : utf8Decode (utf8Encode s) = some s := by
  have hmap : (s.data.map Char.toNat).map Char.ofNat = s.data := by
    induction s.data with
    | nil => rfl
    | cons c cs ih => simp [ih, Char.ofNat_toNat]
  simp only [utf8Decode, utf8DecodeList_utf8Encode]
  show some (String.mk ((s.data.map Char.toNat).map Char.ofNat)) = some s
  rw [hmap]

theorem utf8EncodeChar_lt (c : Nat) (hc : c < 0x110000) : ∀ b ∈ utf8EncodeChar c, b < 256 := by
  intro b hb
  unfold utf8EncodeChar at hb
  split at hb
  · simp only [List.mem_singleton] at hb
    omega
  · split at hb
    · simp only [List.mem_cons, List.not_mem_nil, or_false] at hb
      rcases hb with rfl | rfl <;> omega
    · split at hb
      · simp only [List.mem_cons, List.not_mem_nil, or_false] at hb
        rcases hb with rfl | rfl | rfl <;> omega
      · simp only [List.mem_cons, List.not_mem_nil, or_false] at hb
        rcases hb with rfl | rfl | rfl | rfl <;> omega

theorem utf8Encode_lt (s : String) : ∀ b ∈ utf8Encode s, b < 256 := by
  intro b hb
  simp only [utf8Encode, List.mem_flatten] at hb
  obtain ⟨l, hl, hbl⟩ := hb
  simp only [List.mem_map] at hl
  obtain ⟨c, _, rfl⟩ := hl
  have hv := char_toNat_valid c
  exact utf8EncodeChar_lt c.toNat (by omega) b hbl

/-! ## String codec operations on the owned-buffer reader/writer -/

/-- The value `struct.unpack('b', bytes([b]))` yields: the byte decoded
as an 8-bit signed integer. -/
def signedByte (b : Nat) : Int :=
  if 128 ≤ b then (b : Int) - 256 else (b : Int)

theorem pySlice_nil_of_ge (l : List Nat) (i j : Int) (h0 : 0 ≤ i)
    (h : (l.length : Int) ≤ i) : pySlice l i j = [] := by
  simp only [pySlice]
  rw [if_neg (by omega)]
  have hi : min i.toNat l.length = l.length := by omega
  rw [hi]
  apply List.drop_eq_nil_of_le
  rw [List.length_take]
  exact min_le_right _ _

theorem structUnpack_single (e : Endian) (b : Nat) :
    structUnpack 1 true e [b] = .ok (signedByte b) := by
  have hu : unpackBytes e [b] = b := by cases e <;> simp [unpackBytes, bytesToNatLE]
  simp only [structUnpack]
  rw [if_pos (by simp), hu]
  simp only [signedByte]
  by_cases hb : 128 ≤ b
  · rw [if_pos ⟨trivial, by push_cast; norm_num; omega⟩, if_pos hb]
    norm_num
  · rw [if_neg (by intro hc; have h2 := hc.2; push_cast at h2; norm_num at h2; omega),
      if_neg hb]

theorem read_i8_ok (st : MemoryReader) (b : Int) (st' : MemoryReader)
    (h : st.read_i8 = (.ok b, st')) :
    st'.buffer = st.buffer ∧ st'.offset = st.offset + 1 ∧
      st.offset < (st.buffer.length : Int) := by
  simp only [MemoryReader.read_i8, MemoryReader.read, Prod.mk.injEq] at h
  obtain ⟨h1, h2⟩ := h
  have hsl : (pySlice st.buffer st.offset (st.offset + 1)).length = 1 := by
    by_contra hc
    rw [structUnpack, if_neg hc] at h1
    cases h1
  have hoff : st.offset < (st.buffer.length : Int) := by
    by_contra hge
    push_neg at hge
    rw [pySlice_nil_of_ge st.buffer st.offset (st.offset + 1) (by omega) hge] at hsl
    simp at hsl
  exact ⟨by rw [← h2], by rw [← h2], hoff⟩

/-- The scanning loop of `read_strz`: repeatedly `read_i8` until the
signed byte equals the terminator, counting the bytes before it; an
underflow inside the loop propagates.  Terminates because each
successful `read_i8` moves the cursor one byte closer to the end of
the buffer. -/
def MemoryReader.strzScan (st : MemoryReader) (t : Int) : Except Err Nat × MemoryReader :=
  match h : st.read_i8 with
  | (.error err, st') => (.error err, st')
  | (.ok b, st') =>
    if b = t then (.ok 0, st')
    else
      let p := MemoryReader.strzScan st' t
      (p.1.map (fun n => n + 1), p.2)
termination_by ((st.buffer.length : Int) + 1 - st.offset).toNat
decreasing_by
  have hh := read_i8_ok st b st' h
  rw [hh.1, hh.2.1]
  omega

/-- `MemoryReader.read_str`: read `length` bytes and decode as UTF-8. -/
def MemoryReader.read_str (len : Int) (st : MemoryReader) : Except Err String × MemoryReader :=
  let p := st.read len
  (match utf8Decode p.1 with
   | some line => .ok line
   | none => .error .decodeError, p.2)

/-- `MemoryReader.read_strz`: scan for the terminator from the current
position, seek back, decode the scanned span, then skip the
terminator. -/
def MemoryReader.read_strz (t : Int) (st : MemoryReader) : Except Err String × MemoryReader :=
  let pos := st.tell
  let p := st.strzScan t
  match p.1 with
  | .error err => (.error err, p.2)
  | .ok n =>
    let q := MemoryReader.read_str (n : Int) (p.2.seek pos)
    match q.1 with
    | .error err => (.error err, q.2)
    | .ok line => (.ok line, q.2.skip 1)

/-- `MemoryWriter.write_str`: append the UTF-8 encoding. -/
def MemoryWriter.write_str (data : String) (st : MemoryWriter) : MemoryWriter :=
  st.write (utf8Encode data)

/-- `MemoryWriter.write_strz`: append the UTF-8 encoding then one zero
byte. -/
def MemoryWriter.write_strz (data : String) (st : MemoryWriter) :
    Except Err Unit × MemoryWriter :=
  MemoryWriter.write_i8 0 (st.write (utf8Encode data))

theorem pySlice_middle (pre mid post : List Nat) (c : Int) (hc : c = (mid.length : Int)) :
    pySlice (pre ++ mid ++ post) (pre.length : Int) ((pre.length : Int) + c) = mid := by
  subst hc
  simp only [pySlice]
  rw [if_neg (by omega), if_neg (by omega)]
  have hi : min ((pre.length : Int)).toNat (pre ++ mid ++ post).length = pre.length := by
    simp [List.length_append]
  have hj : min ((pre.length : Int) + (mid.length : Int)).toNat (pre ++ mid ++ post).length
      = pre.length + mid.length := by
    simp [List.length_append]
    omega
  rw [hi, hj]
  rw [List.take_left' (by simp [List.length_append])]
  exact List.drop_left' rfl

theorem read_i8_at (e : Endian) (pre post : List Nat) (z : Nat) :
    MemoryReader.read_i8 ⟨pre ++ z :: post, e, (pre.length : Int)⟩
      = (.ok (signedByte z), ⟨pre ++ z :: post, e, (pre.length : Int) + 1⟩) := by
  simp only [MemoryReader.read_i8, MemoryReader.read]
  have hs : pySlice (pre ++ z :: post) (pre.length : Int) ((pre.length : Int) + 1) = [z] := by
    have h := pySlice_middle pre [z] post 1 (by norm_num)
    simpa using h
  rw [hs, structUnpack_single]

theorem read_i8_end (e : Endian) (l : List Nat) (off : Int) (h0 : 0 ≤ off)
    (hoff : (l.length : Int) ≤ off) :
    MemoryReader.read_i8 ⟨l, e, off⟩ = (.error .underflow, ⟨l, e, off + 1⟩) := by
  simp only [MemoryReader.read_i8, MemoryReader.read]
  rw [pySlice_nil_of_ge l off (off + 1) h0 hoff]
  rfl

theorem strzScan_found (e : Endian) (t : Int) (bs : List Nat) :
    ∀ (pre rest : List Nat) (z : Nat),
      (∀ b ∈ bs, signedByte b ≠ t) → signedByte z = t →
      MemoryReader.strzScan ⟨pre ++ bs ++ z :: rest, e, (pre.length : Int)⟩ t
        = (.ok bs.length,
           ⟨pre ++ bs ++ z :: rest, e, (pre.length : Int) + (bs.length : Int) + 1⟩) := by
  induction bs with
  | nil =>
      intro pre rest z _ hz
      simp only [List.append_nil, List.nil_append, List.length_nil, Nat.cast_zero, add_zero]
      rw [MemoryReader.strzScan]
      split
      · next err st2 heq =>
          rw [read_i8_at e pre rest z] at heq
          simp at heq
      · next b st2 heq =>
          rw [read_i8_at e pre rest z] at heq
          simp only [Prod.mk.injEq] at heq
          obtain ⟨hb, hst⟩ := heq
          injection hb with hb
          subst hb
          rw [if_pos hz, ← hst]
  | cons b bs ih =>
      intro pre rest z hbs hz
      have hbuf : pre ++ (b :: bs) ++ z :: rest = pre ++ b :: (bs ++ z :: rest) := by simp
      rw [hbuf, MemoryReader.strzScan]
      split
      · next err st2 heq =>
          rw [read_i8_at e pre (bs ++ z :: rest) b] at heq
          simp at heq
      · next b2 st2 heq =>
          rw [read_i8_at e pre (bs ++ z :: rest) b] at heq
          simp only [Prod.mk.injEq] at heq
          obtain ⟨hb, hst⟩ := heq
          injection hb with hb
          subst hb
          rw [if_neg (hbs b (List.mem_cons_self b bs)), ← hst]
          have hrec := ih (pre ++ [b]) rest z
            (fun x hx => hbs x (List.mem_cons_of_mem b hx)) hz
          have hshape : (pre ++ [b]) ++ bs ++ z :: rest = pre ++ b :: (bs ++ z :: rest) := by
            simp
          have hlen : (((pre ++ [b]).length : Nat) : Int) = (pre.length : Int) + 1 := by
            simp [List.length_append]
          rw [hshape, hlen] at hrec
          rw [hrec]
          simp only [Prod.mk.injEq]
          refine ⟨rfl, ?_⟩
          simp only [MemoryReader.mk.injEq, eq_self_iff_true, true_and]
          push_cast [List.length_cons]
          ring


theorem strzScan_not_found (e : Endian) (t : Int) (bs : List Nat) :
    ∀ (pre : List Nat), (∀ b ∈ bs, signedByte b ≠ t) →
      MemoryReader.strzScan ⟨pre ++ bs, e, (pre.length : Int)⟩ t
        = (.error .underflow, ⟨pre ++ bs, e, (pre.length : Int) + (bs.length : Int) + 1⟩) := by
  induction bs with
  | nil =>
      intro pre _
      simp only [List.append_nil, List.length_nil, Nat.cast_zero, add_zero]
      rw [MemoryReader.strzScan]
      split
      · next err st2 heq =>
          rw [read_i8_end e pre (pre.length : Int) (by positivity) (le_refl _)] at heq
          simp only [Prod.mk.injEq] at heq
          obtain ⟨h1, h2⟩ := heq
          injection h1 with h1
          subst h1
          rw [← h2]
      · next b st2 heq =>
          rw [read_i8_end e pre (pre.length : Int) (by positivity) (le_refl _)] at heq
          simp at heq
  | cons b bs ih =>
      intro pre hbs
      rw [MemoryReader.strzScan]
      split
      · next err st2 heq =>
          rw [read_i8_at e pre bs b] at heq
          simp at heq
      · next b2 st2 heq =>
          rw [read_i8_at e pre bs b] at heq
          simp only [Prod.mk.injEq] at heq
          obtain ⟨hb, hst⟩ := heq
          injection hb with hb
          subst hb
          rw [if_neg (hbs b (List.mem_cons_self b bs)), ← hst]
          have hrec := ih (pre ++ [b]) (fun x hx => hbs x (List.mem_cons_of_mem b hx))
          have hshape : (pre ++ [b]) ++ bs = pre ++ b :: bs := by simp
          have hlen : (((pre ++ [b]).length : Nat) : Int) = (pre.length : Int) + 1 := by
            simp [List.length_append]
          rw [hshape, hlen] at hrec
          rw [hrec]
          simp only [Prod.mk.injEq]
          refine ⟨rfl, ?_⟩
          simp only [MemoryReader.mk.injEq, eq_self_iff_true, true_and]
          push_cast [List.length_cons]
          ring

theorem signedByte_ne_of_ne_zero (b : Nat) (hlt : b < 256) (hne : b ≠ 0) :
    signedByte b ≠ 0 := by
  simp only [signedByte]
  split <;> omega


/-- C8: when no terminator byte occurs between the cursor and the end
of the data, `read_strz` fails with the underflow condition (the
scanning `read_i8` hits end-of-data) rather than returning a string. -/
theorem c8_strz_missing_terminator (e : Endian) (pre bs : List Nat)
    (h : ∀ b ∈ bs, b < 256 ∧ b ≠ 0) :
    (MemoryReader.read_strz 0 ⟨pre ++ bs, e, (pre.length : Int)⟩).1 = .error .underflow := by
  have hb : ∀ b ∈ bs, signedByte b ≠ 0 := fun b hbm =>
    signedByte_ne_of_ne_zero b (h b hbm).1 (h b hbm).2
  have hscan := strzScan_not_found e 0 bs pre hb
  simp only [MemoryReader.read_strz, MemoryReader.tell]
  rw [hscan]

/-- C10: for any terminator value t with 128 ≤ t ≤ 255, `read_strz(t)`
never stops at a byte equal to t (each byte is decoded as an 8-bit
signed integer in −128..127 before the comparison), so the scan runs
past every occurrence of t to end-of-data and fails with underflow. -/
theorem c10_strz_high_terminator (e : Endian) (t : Int) (ht : 128 ≤ t ∧ t ≤ 255)
    (pre bs : List Nat) (h : ∀ b ∈ bs, b < 256) :
    (MemoryReader.read_strz t ⟨pre ++ bs, e, (pre.length : Int)⟩).1 = .error .underflow := by
  have hb : ∀ b ∈ bs, signedByte b ≠ t := by
    intro b hbm
    have := h b hbm
    simp only [signedByte]
    split <;> omega
  have hscan := strzScan_not_found e t bs pre hb
  simp only [MemoryReader.read_strz, MemoryReader.tell]
  rw [hscan]


/-- C3: `write_strz s` produces the UTF-8 bytes of s followed by one
zero byte; over that buffer `read_strz` returns s and leaves the
cursor at byte_length(s) + 1, for every s whose encoding does not
contain the terminator byte. -/
theorem c3_strz_roundtrip (e : Endian) (s : String) (h0 : (0 : Nat) ∉ utf8Encode s) :
    (MemoryWriter.write_strz s (MemoryWriter.init e)).2.buffer = utf8Encode s ++ [0] ∧
    (MemoryReader.read_strz 0 (MemoryReader.init (utf8Encode s ++ [0]) e)).1 = .ok s ∧
    (MemoryReader.read_strz 0 (MemoryReader.init (utf8Encode s ++ [0]) e)).2.offset
      = ((utf8Encode s).length : Int) + 1 := by
  have hwrite : (MemoryWriter.write_strz s (MemoryWriter.init e)).2.buffer
      = utf8Encode s ++ [0] := by
    simp [MemoryWriter.write_strz, MemoryWriter.write_i8, MemoryWriter.write,
      MemoryWriter.init, structPack_zero_i8]
  have hb : ∀ b ∈ utf8Encode s, signedByte b ≠ 0 := fun b hbm =>
    signedByte_ne_of_ne_zero b (utf8Encode_lt s b hbm) (fun hzz => h0 (hzz ▸ hbm))
  have hscan := strzScan_found e 0 (utf8Encode s) [] [] 0 hb (by simp [signedByte])
  simp only [List.nil_append, List.length_nil, Nat.cast_zero, zero_add] at hscan
  have hread : MemoryReader.read_str ((utf8Encode s).length : Int)
      (MemoryReader.seek 0 ⟨utf8Encode s ++ [0], e, ((utf8Encode s).length : Int) + 1⟩)
      = (.ok s, ⟨utf8Encode s ++ [0], e, ((utf8Encode s).length : Int)⟩) := by
    simp only [MemoryReader.read_str, MemoryReader.seek, MemoryReader.read]
    have hsl : pySlice (utf8Encode s ++ [0]) 0 (0 + ((utf8Encode s).length : Int))
        = utf8Encode s := by
      have h := pySlice_middle [] (utf8Encode s) [0] ((utf8Encode s).length : Int) rfl
      simpa using h
    rw [hsl, utf8Decode_utf8Encode s]
    simp
  refine ⟨hwrite, ?_, ?_⟩ <;>
    · simp only [MemoryReader.read_strz, MemoryReader.init, MemoryReader.tell]
      rw [hscan]
      dsimp only
      rw [hread]
      try dsimp only
      try simp [MemoryReader.skip, MemoryReader.seek, MemoryReader.tell]

/-- C3 witness: the concrete scenario with "abc": bytes
[0x61, 0x62, 0x63, 0x00], result "abc", cursor 4. -/
theorem c3_strz_roundtrip_witness :
    ((0 : Nat) ∉ utf8Encode "abc") ∧
    utf8Encode "abc" = [0x61, 0x62, 0x63] ∧
    ((MemoryWriter.write_strz "abc" (MemoryWriter.init .little)).2.buffer
        = utf8Encode "abc" ++ [0] ∧
      (MemoryReader.read_strz 0 (MemoryReader.init (utf8Encode "abc" ++ [0]) .little)).1
        = .ok "abc" ∧
      (MemoryReader.read_strz 0 (MemoryReader.init (utf8Encode "abc" ++ [0]) .little)).2.offset
        = ((utf8Encode "abc").length : Int) + 1) :=
  ⟨by decide, by decide, c3_strz_roundtrip .little "abc" (by decide)⟩

/-- C8 witness: a buffer [65, 66] with no zero byte makes `read_strz`
fail with underflow. -/
theorem c8_strz_missing_terminator_witness :
    (∀ b ∈ [65, 66], b < 256 ∧ b ≠ 0) ∧
    (MemoryReader.read_strz 0
        ⟨[] ++ [65, 66], .little, (([] : List Nat).length : Int)⟩).1 = .error .underflow :=
  ⟨by decide, c8_strz_missing_terminator .little [] [65, 66] (by decide)⟩

/-- C10 witness: terminator 200 with a buffer that contains the byte
200 still fails with underflow. -/
theorem c10_strz_high_terminator_witness :
    ((128 : Int) ≤ 200 ∧ (200 : Int) ≤ 255) ∧ (200 : Nat) ∈ [200, 65] ∧
    (∀ b ∈ [200, 65], b < 256) ∧
    (MemoryReader.read_strz 200
        ⟨[] ++ [200, 65], .little, (([] : List Nat).length : Int)⟩).1 = .error .underflow :=
  ⟨by norm_num, by decide, by decide,
   c10_strz_high_terminator .little 200 (by norm_num) [] [200, 65] (by decide)⟩


/-! ## External-source reader (`Reader` over a seekable binary stream) -/

/-- `stream.read(count)` of a seekable binary source: up to `count`
bytes from the current position (fewer at end-of-file, everything
remaining for a negative count), advancing the position by the number
of bytes actually returned. -/
def FileBuf.readAt (count : Int) (f : FileBuf) : List Nat × FileBuf :=
  let rest := f.data.drop f.pos
  let bs := if count < 0 then rest else rest.take count.toNat
  (bs, { f with pos := f.pos + bs.length })

/-- State of a `Reader`: the external source and the endianness. -/
structure Reader where
  buffer : FileBuf
  endian : Endian
deriving DecidableEq, Repr

/-- `Reader.read`: delegate to the source. -/
def Reader.read (count : Int) (st : Reader) : List Nat × Reader :=
  let p := st.buffer.readAt count
  (p.1, { st with buffer := p.2 })

/-- The byte-wise XOR transform of `read_str_xor`:
`map(lambda n: n ^ xor, data)`. -/
def xorBytes (xor : Nat) (bs : List Nat) : List Nat :=
  bs.map (fun n => n ^^^ xor)

/-- `Reader.read_str`: read `size` bytes and decode as UTF-8. -/
def Reader.read_str (size : Int) (st : Reader) : Except Err String × Reader :=
  let p := st.read size
  (match utf8Decode p.1 with
   | some line => .ok line
   | none => .error .decodeError, p.2)

/-- `Reader.read_str_xor`: read `size` bytes, XOR each with the key,
rebuild a byte string (`bytes()` raises `ValueError` unless every
value is below 256) and decode as UTF-8. -/
def Reader.read_str_xor (size : Int) (xor : Nat) (st : Reader) :
    Except Err String × Reader :=
  let p := st.read size
  let xored := xorBytes xor p.1
  (if ∀ b ∈ xored, b < 256 then
    match utf8Decode xored with
    | some line => .ok line
    | none => .error .decodeError
   else .error .valueError, p.2)

theorem xorBytes_xorBytes (xor : Nat) (bs : List Nat) :
    xorBytes xor (xorBytes xor bs) = bs := by
  induction bs with
  | nil => rfl
  | cons a l ih =>
      simp only [xorBytes, List.map_cons] at ih ⊢
      rw [ih]
      congr 1
      rw [Nat.xor_assoc, Nat.xor_self, Nat.xor_zero]

/-- C7: the byte-wise XOR transform with a single key is an
involution, and consequently `read_str_xor` over a span obtained by
XOR-encoding a string's UTF-8 bytes with key k recovers the string. -/
theorem c7_xor_roundtrip :
    (∀ (xor : Nat) (bs : List Nat), xorBytes xor (xorBytes xor bs) = bs) ∧
    (∀ (e : Endian) (s : String) (xor : Nat), xor < 256 →
      (Reader.read_str_xor ((utf8Encode s).length : Int) xor
        ⟨⟨xorBytes xor (utf8Encode s), 0⟩, e⟩).1 = .ok s) := by
  refine ⟨xorBytes_xorBytes, ?_⟩
  intro e s xor _
  simp only [Reader.read_str_xor, Reader.read, FileBuf.readAt, List.drop_zero]
  rw [if_neg (show ¬(((utf8Encode s).length : Int) < 0) from by omega)]
  have hlen : (xorBytes xor (utf8Encode s)).length = (utf8Encode s).length := by
    simp [xorBytes]
  have htake : (xorBytes xor (utf8Encode s)).take (((utf8Encode s).length : Int)).toNat
      = xorBytes xor (utf8Encode s) := by
    rw [Int.toNat_natCast, ← hlen, List.take_length]
  rw [htake, xorBytes_xorBytes]
  rw [if_pos (utf8Encode_lt s), utf8Decode_utf8Encode s]

/-- C7 witness: key 0x5A over "abc". -/
theorem c7_xor_roundtrip_witness :
    xorBytes 0x5A (xorBytes 0x5A [1, 2, 3]) = [1, 2, 3] ∧
    ((0x5A : Nat) < 256 ∧
      (Reader.read_str_xor ((utf8Encode "abc").length : Int) 0x5A
        ⟨⟨xorBytes 0x5A (utf8Encode "abc"), 0⟩, .little⟩).1 = .ok "abc") :=
  ⟨c7_xor_roundtrip.1 0x5A [1, 2, 3],
   by decide,
   c7_xor_roundtrip.2 .little "abc" 0x5A (by decide)⟩

/-! ## Cursor bounds after successful reads -/

theorem structUnpack_ok_length (w : Nat) (sg : Bool) (e : Endian) (bs : List Nat) (r : Int)
    (h : structUnpack w sg e bs = .ok r) : bs.length = w := by
  by_contra hc
  rw [structUnpack, if_neg hc] at h
  cases h

theorem slice_ok_bounds (st : MemoryReader) (c : Int) (w : Nat) (hc : c = (w : Int))
    (hw : 0 < w) (h0 : 0 ≤ st.offset)
    (hlen : (pySlice st.buffer st.offset (st.offset + c)).length = w) :
    st.offset + c ≤ (st.buffer.length : Int) := by
  by_contra hgt
  push_neg at hgt
  exact pySlice_length_ne st.buffer st.offset c w h0 hw hc hgt hlen

theorem strzScan_ok_bounds :
    ∀ (m : Nat) (st : MemoryReader) (t : Int) (n : Nat) (st' : MemoryReader),
      ((st.buffer.length : Int) + 1 - st.offset).toNat = m →
      0 ≤ st.offset →
      st.strzScan t = (.ok n, st') →
      st'.buffer = st.buffer ∧ st'.offset = st.offset + (n : Int) + 1 ∧
        st.offset + (n : Int) < (st.buffer.length : Int) := by
  intro m
  induction m using Nat.strong_induction_on with
  | _ m ih =>
      intro st t n st' hm h0 h
      rw [MemoryReader.strzScan] at h
      split at h
      · next err st2 heq => cases h
      · next b st2 heq =>
          have hb := read_i8_ok st b st2 heq
          split at h
          · simp only [Prod.mk.injEq] at h
            obtain ⟨h1, h2⟩ := h
            injection h1 with h1
            subst h1
            subst h2
            refine ⟨hb.1, ?_, ?_⟩
            · rw [hb.2.1]
              push_cast
              ring
            · have := hb.2.2
              omega
          · rcases hp : st2.strzScan t with ⟨r, st3⟩
            rw [hp] at h
            simp only [Prod.mk.injEq] at h
            obtain ⟨h1, h2⟩ := h
            cases r with
            | error err => simp [Except.map] at h1
            | ok k =>
                simp only [Except.map] at h1
                injection h1 with h1
                have h0b : 0 ≤ st2.offset := by rw [hb.2.1]; omega
                have hmeas : ((st2.buffer.length : Int) + 1 - st2.offset).toNat < m := by
                  rw [hb.1, hb.2.1]
                  have := hb.2.2
                  omega
                have hrec := ih _ hmeas st2 t k st3 rfl h0b hp
                subst h2
                refine ⟨by rw [hrec.1, hb.1], ?_, ?_⟩
                · rw [hrec.2.1, hb.2.1]
                  omega
                · have hlt := hrec.2.2
                  rw [hb.1, hb.2.1] at hlt
                  omega

theorem read_strz_ok_bounds (st : MemoryReader) (t : Int) (line : String)
    (st' : MemoryReader) (h0 : 0 ≤ st.offset) (h : st.read_strz t = (.ok line, st')) :
    st'.buffer = st.buffer ∧ 0 ≤ st'.offset ∧ st'.offset ≤ (st'.buffer.length : Int) := by
  simp only [MemoryReader.read_strz, MemoryReader.tell] at h
  rcases hp : st.strzScan t with ⟨r, st2⟩
  rw [hp] at h
  cases r with
  | error err => simp at h
  | ok n =>
      have hscan := strzScan_ok_bounds _ st t n st2 rfl h0 hp
      dsimp only at h
      rcases hq : MemoryReader.read_str (n : Int) (MemoryReader.seek st.offset st2)
        with ⟨qr, st3⟩
      rw [hq] at h
      have hq2 := congrArg Prod.snd hq
      simp only [MemoryReader.read_str, MemoryReader.read, MemoryReader.seek] at hq2
      cases qr with
      | error err => simp at h
      | ok line2 =>
          simp only [Prod.mk.injEq] at h
          obtain ⟨-, h2⟩ := h
          subst h2
          simp only [MemoryReader.skip, MemoryReader.seek, MemoryReader.tell]
          rw [← hq2]
          dsimp only
          refine ⟨hscan.1, by omega, ?_⟩
          rw [hscan.1]
          have := hscan.2.2
          omega


/-- C4 (amended): from a cursor with 0 ≤ cursor ≤ length, `read` and
`read_str` keep the invariant whenever the requested span lies within
the buffer, every successful fixed-width read keeps it, and a
successful `read_strz` keeps it; `seek`/`skip` (unchecked) and failing
reads, excluded here, can violate it. -/
theorem c4_cursor_invariant_amended (st : MemoryReader) (h0 : 0 ≤ st.offset) :
    (∀ count : Int, 0 ≤ count → st.offset + count ≤ (st.buffer.length : Int) →
      0 ≤ (st.read count).2.offset ∧
        (st.read count).2.offset ≤ ((st.read count).2.buffer.length : Int)) ∧
    (∀ (v : Int) (st' : MemoryReader), st.read_i8 = (.ok v, st') →
      0 ≤ st'.offset ∧ st'.offset ≤ (st'.buffer.length : Int)) ∧
    (∀ (v : Int) (st' : MemoryReader), st.read_i16 = (.ok v, st') →
      0 ≤ st'.offset ∧ st'.offset ≤ (st'.buffer.length : Int)) ∧
    (∀ (v : Int) (st' : MemoryReader), st.read_i32 = (.ok v, st') →
      0 ≤ st'.offset ∧ st'.offset ≤ (st'.buffer.length : Int)) ∧
    (∀ (v : Int) (st' : MemoryReader), st.read_i64 = (.ok v, st') →
      0 ≤ st'.offset ∧ st'.offset ≤ (st'.buffer.length : Int)) ∧
    (∀ (v : Int) (st' : MemoryReader), st.read_u8 = (.ok v, st') →
      0 ≤ st'.offset ∧ st'.offset ≤ (st'.buffer.length : Int)) ∧
    (∀ (v : Int) (st' : MemoryReader), st.read_u16 = (.ok v, st') →
      0 ≤ st'.offset ∧ st'.offset ≤ (st'.buffer.length : Int)) ∧
    (∀ (v : Int) (st' : MemoryReader), st.read_u32 = (.ok v, st') →
      0 ≤ st'.offset ∧ st'.offset ≤ (st'.buffer.length : Int)) ∧
    (∀ (v : Int) (st' : MemoryReader), st.read_u64 = (.ok v, st') →
      0 ≤ st'.offset ∧ st'.offset ≤ (st'.buffer.length : Int)) ∧
    (∀ len : Int, 0 ≤ len → st.offset + len ≤ (st.buffer.length : Int) →
      0 ≤ (MemoryReader.read_str len st).2.offset ∧
        (MemoryReader.read_str len st).2.offset
          ≤ ((MemoryReader.read_str len st).2.buffer.length : Int)) ∧
    (∀ (t : Int) (line : String) (st' : MemoryReader),
      st.read_strz t = (.ok line, st') →
      0 ≤ st'.offset ∧ st'.offset ≤ (st'.buffer.length : Int)) := by
  refine ⟨?_, ?_, ?_, ?_, ?_, ?_, ?_, ?_, ?_, ?_, ?_⟩
  · intro count hc hin
    simp only [MemoryReader.read]
    omega
  · intro v st' h
    simp only [MemoryReader.read_i8, MemoryReader.read, Prod.mk.injEq] at h
    obtain ⟨h1, h2⟩ := h
    have hlen := structUnpack_ok_length _ _ _ _ _ h1
    have hb := slice_ok_bounds st 1 1 (by norm_num) (by norm_num) h0 hlen
    rw [← h2]
    dsimp only
    omega
  · intro v st' h
    simp only [MemoryReader.read_i16, MemoryReader.read, Prod.mk.injEq] at h
    obtain ⟨h1, h2⟩ := h
    have hlen := structUnpack_ok_length _ _ _ _ _ h1
    have hb := slice_ok_bounds st 2 2 (by norm_num) (by norm_num) h0 hlen
    rw [← h2]
    dsimp only
    omega
  · intro v st' h
    simp only [MemoryReader.read_i32, MemoryReader.read, Prod.mk.injEq] at h
    obtain ⟨h1, h2⟩ := h
    have hlen := structUnpack_ok_length _ _ _ _ _ h1
    have hb := slice_ok_bounds st 4 4 (by norm_num) (by norm_num) h0 hlen
    rw [← h2]
    dsimp only
    omega
  · intro v st' h
    simp only [MemoryReader.read_i64, MemoryReader.read, Prod.mk.injEq] at h
    obtain ⟨h1, h2⟩ := h
    have hlen := structUnpack_ok_length _ _ _ _ _ h1
    have hb := slice_ok_bounds st 8 8 (by norm_num) (by norm_num) h0 hlen
    rw [← h2]
    dsimp only
    omega
  · intro v st' h
    simp only [MemoryReader.read_u8, MemoryReader.read, Prod.mk.injEq] at h
    obtain ⟨h1, h2⟩ := h
    have hlen := structUnpack_ok_length _ _ _ _ _ h1
    have hb := slice_ok_bounds st 1 1 (by norm_num) (by norm_num) h0 hlen
    rw [← h2]
    dsimp only
    omega
  · intro v st' h
    simp only [MemoryReader.read_u16, MemoryReader.read, Prod.mk.injEq] at h
    obtain ⟨h1, h2⟩ := h
    have hlen := structUnpack_ok_length _ _ _ _ _ h1
    have hb := slice_ok_bounds st 2 2 (by norm_num) (by norm_num) h0 hlen
    rw [← h2]
    dsimp only
    omega
  · intro v st' h
    simp only [MemoryReader.read_u32, MemoryReader.read, Prod.mk.injEq] at h
    obtain ⟨h1, h2⟩ := h
    have hlen := structUnpack_ok_length _ _ _ _ _ h1
    have hb := slice_ok_bounds st 4 4 (by norm_num) (by norm_num) h0 hlen
    rw [← h2]
    dsimp only
    omega
  · intro v st' h
    simp only [MemoryReader.read_u64, MemoryReader.read, Prod.mk.injEq] at h
    obtain ⟨h1, h2⟩ := h
    have hlen := structUnpack_ok_length _ _ _ _ _ h1
    have hb := slice_ok_bounds st 8 8 (by norm_num) (by norm_num) h0 hlen
    rw [← h2]
    dsimp only
    omega
  · intro len hc hin
    simp only [MemoryReader.read_str, MemoryReader.read]
    omega
  · intro t line st' h
    have hb := read_strz_ok_bounds st t line st' h0 h
    exact ⟨hb.2.1, hb.2.2⟩

/-- C4 counterexample: `seek(10)` on a reader over the empty buffer —
a `seek` is one of the operations the claim quantifies over — leaves
the cursor at 10, strictly beyond the buffer length 0, so the claimed
invariant `0 ≤ cursor ≤ length` after every operation is false. -/
theorem c4_cursor_invariant_counterexample :
    ¬(0 ≤ (MemoryReader.seek 10 (MemoryReader.init [] .little)).offset ∧
      (MemoryReader.seek 10 (MemoryReader.init [] .little)).offset
        ≤ ((MemoryReader.seek 10 (MemoryReader.init [] .little)).buffer.length : Int)) := by
  decide

/-- C4 witness: instance of the amended invariant on a one-byte
buffer. -/
theorem c4_cursor_invariant_amended_witness :
    (0 : Int) ≤ (MemoryReader.init [5] .little).offset ∧
    (0 ≤ ((MemoryReader.init [5] .little).read 1).2.offset ∧
      ((MemoryReader.init [5] .little).read 1).2.offset
        ≤ (((MemoryReader.init [5] .little).read 1).2.buffer.length : Int)) :=
  ⟨by simp [MemoryReader.init],
   (c4_cursor_invariant_amended (MemoryReader.init [5] .little)
      (by simp [MemoryReader.init])).1 1 (by norm_num) (by simp [MemoryReader.init])⟩

end Pyio
